import Mathlib

/-!
Shallow embedding of `src/scrape_value.py`, a Yahoo fantasy-football auction
draft value scraper.  Text values scraped from the page are modelled as
`List Char`; Python dictionaries are modelled as insertion-ordered
association lists; the browser/driver interaction is modelled as an event
trace (page fetches, warnings, the CSV write and the driver close).
-/

set_option autoImplicit false

namespace ScrapeValue

/-- Text values (cell contents, CSV bytes) are lists of characters. -/
abbrev Str := List Char

/-- Python exceptions that the script can raise. -/
inductive PyError where
  | noSuchElement : String → PyError
  | keyError : String → PyError
  | valueError : Nat → PyError
  | extraKeys : PyError
  deriving DecidableEq

/-- A Python dict from column names to text values, as an insertion-ordered
association list (Python 3.7+ dict semantics). -/
abbrev Dict := List (String × Str)

/-- Membership test for a key, mirroring `k in d`. -/
def dictHas (d : Dict) (k : String) : Bool :=
  d.any (fun p => p.1 == k)

/-- Lookup, mirroring `d[k]` returning `none` when the key is absent. -/
def dictGet? (d : Dict) (k : String) : Option Str :=
  (d.find? (fun p => p.1 == k)).map Prod.snd

/-- Lookup with a default, mirroring `d.get(k, v)`. -/
def dictGetD (d : Dict) (k : String) (v : Str) : Str :=
  (dictGet? d k).getD v

/-- Assignment `d[k] = v`: update in place when the key exists (keeping its
position), otherwise append the new binding at the end. -/
def dictSet (d : Dict) (k : String) (v : Str) : Dict :=
  if dictHas d k then d.map (fun p => if p.1 == k then (k, v) else p)
  else d ++ [(k, v)]

/-- The keys of a dict, in insertion order. -/
def dictKeys (d : Dict) : List String :=
  d.map Prod.fst

/-- The fixed CSV column names (`fields` in the source). -/
def fields : List String :=
  ["Name", "Position", "Team", "Projected Value", "Average Cost", "Percent Drafted"]

/-- The per-column XPath selectors (`XPATH_MAP` in the source), in the
iteration order of the Python dict literal. -/
def XPATH_MAP : List (String × String) :=
  [("Name", "td[1]/div/div[1]/div/a"),
   ("Position", "td[1]/div/div[1]/div/span"),
   ("Projected Value", "td[2]/div"),
   ("Average Cost", "td[3]/div"),
   ("Percent Drafted", "td[4]/div")]

/-- The fixed page size (`YAHOO_RESULTS_PER_PAGE` in the source). -/
def YAHOO_RESULTS_PER_PAGE : Nat := 50

/-- A scraped table row: a map from an XPath selector to the `innerHTML`
of the matching element, `none` when no element matches (which raises
`NoSuchElementException` in selenium). -/
abbrev PlayerRow := String → Option Str

/-- The external site: for each `count=` offset, the list of table rows the
page at that offset yields. -/
abbrev Site := Int → List PlayerRow

/-- Observable actions of the script, in execution order. -/
inductive Event where
  | fetchPage : Int → Event
  | warnPage : Nat → Int → Nat → Event
  | warnTotal : Nat → Int → Event
  | writeCSV : String → Str → Event
  | closeDriver : Event
  deriving DecidableEq

/-- Python `s.split(" - ")` on character lists, specialised to the fixed
delimiter of the source: scan left to right, breaking at each
(non-overlapping) occurrence of space-dash-space.  The first argument
accumulates the current part in reverse. -/
def pySplitSepAux : List Char → List Char → List (List Char)
  | acc, ' ' :: '-' :: ' ' :: rest => acc.reverse :: pySplitSepAux [] rest
  | acc, c :: rest => pySplitSepAux (c :: acc) rest
  | acc, [] => [acc.reverse]

/-- Python `s.split(" - ")`. -/
def pySplitSep (s : Str) : List Str :=
  pySplitSepAux [] s

/-- One iteration pass of the `for col_name, xpath in XPATH_MAP.items()`
loop of `process_player`: look each column up and store it in the dict. -/
def processPlayerFold (row : PlayerRow) : List (String × String) → Dict → Except PyError Dict
  | [], d => .ok d
  | (col, xp) :: rest, d =>
    match row xp with
    | none => .error (.noSuchElement xp)
    | some v => processPlayerFold row rest (dictSet d col v)

/-- Model of `process_player`: extract the five mapped cells, then split the
combined Position cell on the fixed delimiter; exactly two parts unpack into
`team, position`, any other number raises `ValueError`. -/
def process_player (row : PlayerRow) : Except PyError Dict :=
  match processPlayerFold row XPATH_MAP [] with
  | .error e => .error e
  | .ok dv =>
    match dictGet? dv "Position" with
    | none => .error (.keyError "Position")
    | some posCell =>
      match pySplitSep posCell with
      | [team, position] => .ok (dictSet (dictSet dv "Position" position) "Team" team)
      | parts => .error (.valueError parts.length)

/-- The row loop of `process_page`: process each row in order, propagating
the first uncaught error. -/
def processRows : List PlayerRow → Except PyError (List Dict)
  | [] => .ok []
  | r :: rs =>
    match process_player r with
    | .error e => .error e
    | .ok d =>
      match processRows rs with
      | .error e => .error e
      | .ok ds => .ok (d :: ds)

/-- Model of `process_page`: fetch the page at offset `cnt`, process its
rows, and log a warning when fewer than `YAHOO_RESULTS_PER_PAGE` rows were
collected.  The first component is the trace of observable events. -/
def process_page (site : Site) (cnt : Int) : List Event × Except PyError (List Dict) :=
  match processRows (site cnt) with
  | .error e => ([.fetchPage cnt], .error e)
  | .ok lst =>
    if lst.length < YAHOO_RESULTS_PER_PAGE then
      ([.fetchPage cnt, .warnPage lst.length cnt YAHOO_RESULTS_PER_PAGE], .ok lst)
    else
      ([.fetchPage cnt], .ok lst)

/-- Whether a CSV field must be quoted under QUOTE_MINIMAL: it contains the
delimiter, the quote character, or a line-terminator character. -/
def needsQuote (f : Str) : Bool :=
  f.any (fun c => c = ',' || c = '"' || c = '\r' || c = '\n')

/-- Double every quote character, as the csv writer does inside a quoted
field. -/
def escapeQuotes : Str → Str
  | [] => []
  | c :: cs => if c = '"' then '"' :: '"' :: escapeQuotes cs else c :: escapeQuotes cs

/-- Serialize one CSV field under QUOTE_MINIMAL. -/
def renderField (f : Str) : Str :=
  if needsQuote f then '"' :: (escapeQuotes f ++ ['"']) else f

/-- Serialize the fields of one CSV row, comma separated. -/
def renderRowChars : List Str → Str
  | [] => []
  | [f] => renderField f
  | f :: fs => renderField f ++ ',' :: renderRowChars fs

/-- The line terminator of the default csv dialect. -/
def CRLF : Str := ['\r', '\n']

/-- The values of a dict in the fixed column order, with the DictWriter
default `restval` for missing keys rendered as the empty string. -/
def rowVals (d : Dict) : List Str :=
  fields.map (fun k => dictGetD d k [])

/-- DictWriter `_dict_to_list`: raise `ValueError` when the dict has a key
outside the declared fieldnames, otherwise produce the values in column
order. -/
def dictToList (d : Dict) : Except PyError (List Str) :=
  if ∀ p ∈ d, p.1 ∈ fields then .ok (rowVals d) else .error .extraKeys

/-- DictWriter `writerow`: serialize one record as one CSV row followed by
the line terminator. -/
def writerow (d : Dict) : Except PyError Str :=
  match dictToList d with
  | .error e => .error e
  | .ok vs => .ok (renderRowChars vs ++ CRLF)

/-- DictWriter `writeheader`: one CSV row holding the fieldnames. -/
def writeheader : Str :=
  renderRowChars (fields.map String.data) ++ CRLF

/-- The `for row in auction_values_list` loop of
`write_auction_draft_values`. -/
def writeRowsLoop : List Dict → Except PyError Str
  | [] => .ok []
  | d :: ds =>
    match writerow d with
    | .error e => .error e
    | .ok r =>
      match writeRowsLoop ds with
      | .error e => .error e
      | .ok rest => .ok (r ++ rest)

/-- Model of `write_auction_draft_values`: the produced file content is the
header row followed by one serialized row per record, in order. -/
def write_auction_draft_values (lst : List Dict) : Except PyError Str :=
  match writeRowsLoop lst with
  | .error e => .error e
  | .ok rowsContent => .ok (writeheader ++ rowsContent)

/-- Whether a character terminates an unquoted CSV field. -/
def isFieldEnd (c : Char) : Bool :=
  c = ',' || c = '\r' || c = '\n'

/-- Parse the remainder of a quoted CSV field (the opening quote already
consumed): a doubled quote stands for one quote character, a single quote
closes the field. -/
def parseQuoted : Str → Option (Str × Str)
  | [] => none
  | c :: rest =>
    if c = '"' then
      match rest with
      | c2 :: rest2 =>
        if c2 = '"' then Option.map (fun p => ('"' :: p.1, p.2)) (parseQuoted rest2)
        else some ([], rest)
      | [] => some ([], [])
    else Option.map (fun p => (c :: p.1, p.2)) (parseQuoted rest)

/-- Parse one CSV field, returning the field and the unconsumed input. -/
def parseField (l : Str) : Option (Str × Str) :=
  match l with
  | [] => some ([], [])
  | c :: rest =>
    if c = '"' then parseQuoted rest
    else some ((c :: rest).takeWhile (fun x => !isFieldEnd x),
               (c :: rest).dropWhile (fun x => !isFieldEnd x))

/-- Parse the fields of one CSV row (fuelled): fields separated by commas,
the row ended by CRLF or the end of input. -/
def parseRowAux : Nat → Str → Option (List Str × Str)
  | 0, _ => none
  | fuel + 1, l =>
    match parseField l with
    | none => none
    | some (f, rest) =>
      match rest with
      | [] => some ([f], [])
      | c :: rest2 =>
        if c = ',' then
          match parseRowAux fuel rest2 with
          | some (fs, r) => some (f :: fs, r)
          | none => none
        else if c = '\r' then
          match rest2 with
          | c2 :: rest3 => if c2 = '\n' then some ([f], rest3) else none
          | [] => none
        else none

/-- Parse a sequence of CSV rows until the input is exhausted (fuelled). -/
def parseCSVAux : Nat → Str → Option (List (List Str))
  | _, [] => some []
  | 0, _ => none
  | fuel + 1, l =>
    match parseRowAux (l.length + 1) l with
    | none => none
    | some (r, rest) =>
      match parseCSVAux fuel rest with
      | some rs => some (r :: rs)
      | none => none

/-- Parse a whole CSV file into its rows of fields. -/
def parseCSV (l : Str) : Option (List (List Str)) :=
  parseCSVAux (l.length + 1) l

/-- Python `range(start, stop, 50)` for a positive step of 50. -/
def pyRange50 (start stop : Int) : List Int :=
  if start < stop then start :: pyRange50 (start + 50) stop else []
termination_by (stop - start).toNat
decreasing_by simp_wf; omega

/-- The page loop of `get_auction_draft_values`: fetch each offset in
order, concatenating the per-page traces and row lists; an uncaught error
stops the loop. -/
def scrapeLoop (site : Site) : List Int → List Event × List Dict × Option PyError
  | [] => ([], [], none)
  | cnt :: rest =>
    match process_page site cnt with
    | (evs, .error e) => (evs, [], some e)
    | (evs, .ok ds) =>
      match scrapeLoop site rest with
      | (evs2, ds2, err) => (evs ++ evs2, ds ++ ds2, err)

/-- Model of `get_auction_draft_values`: loop over the page offsets, warn
when fewer rows than requested were accumulated, write the CSV, then close
the driver.  The trace records what actually executed; on an uncaught
error the remaining steps (including the driver close) never run, because
the source has no try/finally around the scrape. -/
def get_auction_draft_values (site : Site) (csv_file : String) (total_players : Int) :
    List Event × Option PyError :=
  match scrapeLoop site (pyRange50 0 total_players) with
  | (evs, _, some e) => (evs, some e)
  | (evs, lst, none) =>
    let warnEvs := if (lst.length : Int) < total_players
      then [Event.warnTotal lst.length total_players] else []
    match write_auction_draft_values lst with
    | .error e => (evs ++ warnEvs, some e)
    | .ok content =>
      (evs ++ warnEvs ++ [Event.writeCSV csv_file content, Event.closeDriver], none)

/-- The number of page fetches the offset loop performs for a requested
total. -/
def numPages (n : Int) : Nat :=
  if n ≤ 0 then 0 else (n.toNat + 49) / 50

/-- The events one successfully processed page contributes to the trace. -/
def pageEvents (cnt : Int) (l : List Dict) : List Event :=
  if l.length < YAHOO_RESULTS_PER_PAGE then
    [.fetchPage cnt, .warnPage l.length cnt YAHOO_RESULTS_PER_PAGE]
  else
    [.fetchPage cnt]

/-! ### Concrete inputs used by witnesses and counterexamples -/

/-- A well-formed row: the combined Position cell is the two-part
`NE - QB`, every other mapped cell is `7`. -/
def rowOK : PlayerRow :=
  fun xp => if xp = "td[1]/div/div[1]/div/span" then some ("NE - QB".data) else some ("7".data)

/-- A malformed row: every mapped cell (the combined Position cell
included) is `FA`, which contains no delimiter. -/
def rowBad : PlayerRow :=
  fun _ => some ("FA".data)

/-- A site whose every page is empty. -/
def siteEmpty : Site := fun _ => []

/-- A site whose every page is the single malformed row. -/
def siteBad : Site := fun _ => [rowBad]

/-- A site whose every page has a good row followed by a malformed one and
another good one. -/
def siteMixed : Site := fun _ => [rowOK, rowBad, rowOK]

/-- A record with exactly the six expected keys. -/
def sampleDict : Dict :=
  [("Name", "Tom Brady".data), ("Position", "QB".data), ("Team", "NE".data),
   ("Projected Value", "58".data), ("Average Cost", "57.8".data),
   ("Percent Drafted", "100%".data)]

/-! ### Shape of `process_player` results -/

/-- The record `process_player` produces from a row whose five mapped cells
are present and whose combined cell splits into exactly two parts. -/
lemma process_player_eq (row : PlayerRow) (nm ps pv ac pd team position : Str)
    (h1 : row "td[1]/div/div[1]/div/a" = some nm)
    (h2 : row "td[1]/div/div[1]/div/span" = some ps)
    (h3 : row "td[2]/div" = some pv)
    (h4 : row "td[3]/div" = some ac)
    (h5 : row "td[4]/div" = some pd)
    (h6 : pySplitSep ps = [team, position]) :
    process_player row =
      .ok [("Name", nm), ("Position", position), ("Projected Value", pv),
           ("Average Cost", ac), ("Percent Drafted", pd), ("Team", team)] := by
  simp only [process_player, processPlayerFold, XPATH_MAP, h1, h2, h3, h4, h5]
  simp [dictSet, dictHas, dictGet?, h6]

/-- When the combined cell does not split into exactly two parts,
`process_player` raises `ValueError`. -/
lemma process_player_error (row : PlayerRow) (nm ps pv ac pd : Str)
    (h1 : row "td[1]/div/div[1]/div/a" = some nm)
    (h2 : row "td[1]/div/div[1]/div/span" = some ps)
    (h3 : row "td[2]/div" = some pv)
    (h4 : row "td[3]/div" = some ac)
    (h5 : row "td[4]/div" = some pd)
    (hlen : (pySplitSep ps).length ≠ 2) :
    process_player row = .error (.valueError (pySplitSep ps).length) := by
  simp only [process_player, processPlayerFold, XPATH_MAP, h1, h2, h3, h4, h5]
  have hget : dictGet? [("Name", nm), ("Position", ps), ("Projected Value", pv),
      ("Average Cost", ac), ("Percent Drafted", pd)] "Position" = some ps := rfl
  rcases hsp : pySplitSep ps with _ | ⟨a, _ | ⟨b, _ | ⟨c, t⟩⟩⟩ <;>
    simp_all [dictSet, dictHas, dictGet?]

/-- Appending more rows after a prefix that processes cleanly: the combined
result is decided by the remaining rows. -/
lemma processRows_append_error (pre rest : List PlayerRow) (ds : List Dict) (e : PyError)
    (h : processRows pre = .ok ds) (h2 : processRows rest = .error e) :
    processRows (pre ++ rest) = .error e := by
  induction pre generalizing ds with
  | nil => simpa using h2
  | cons r rs ih =>
    rw [List.cons_append, processRows]
    rw [processRows] at h
    cases hp : process_player r with
    | error e' => simp [hp] at h
    | ok d =>
      simp only [hp] at h ⊢
      cases hr : processRows rs with
      | error e' => simp [hr] at h
      | ok ds' => rw [ih ds' hr]

/-! ### The CSV writer -/

/-- A record whose keys all lie in the declared fieldnames serializes to
one row holding its values in column order. -/
lemma writerow_ok (d : Dict) (h : ∀ p ∈ d, p.1 ∈ fields) :
    writerow d = .ok (renderRowChars (rowVals d) ++ CRLF) := by
  unfold writerow dictToList
  rw [if_pos h]

/-- The row loop serializes each record to one row, in input order. -/
lemma writeRowsLoop_ok (lst : List Dict) (h : ∀ d ∈ lst, ∀ p ∈ d, p.1 ∈ fields) :
    writeRowsLoop lst =
      .ok ((lst.map (fun d => renderRowChars (rowVals d) ++ CRLF)).flatten) := by
  induction lst with
  | nil => rfl
  | cons d ds ih =>
    rw [writeRowsLoop, writerow_ok d (h d (by simp)),
      ih (fun d' hd' => h d' (by simp [hd']))]
    simp

/-- The full writer output: the header row followed by one row per record,
in input order, each with the values in the fixed column order. -/
lemma write_ok (lst : List Dict) (h : ∀ d ∈ lst, ∀ p ∈ d, p.1 ∈ fields) :
    write_auction_draft_values lst =
      .ok (((fields.map String.data :: lst.map rowVals).map
        (fun r => renderRowChars r ++ CRLF)).flatten) := by
  rw [write_auction_draft_values, writeRowsLoop_ok lst h]
  simp only [writeheader, List.map_cons, List.map_map, List.flatten_cons, List.append_assoc]
  rfl

/-! ### CSV parse/render roundtrip -/

/-- One-step unfolding of `parseQuoted` on a cons cell. -/
lemma parseQuoted_cons (c : Char) (rest : Str) :
    parseQuoted (c :: rest) =
      if c = '"' then
        match rest with
        | c2 :: rest2 =>
          if c2 = '"' then Option.map (fun p => ('"' :: p.1, p.2)) (parseQuoted rest2)
          else some ([], c2 :: rest2)
        | [] => some ([], [])
      else Option.map (fun p => (c :: p.1, p.2)) (parseQuoted rest) := by
  cases rest <;> rfl

/-- Parsing a quoted field body inverts quote escaping, as long as the
input after the closing quote does not itself start with a quote. -/
lemma parseQuoted_escape (f rest : Str) (h : ∀ c cs, rest = c :: cs → c ≠ '"') :
    parseQuoted (escapeQuotes f ++ '"' :: rest) = some (f, rest) := by
  induction f with
  | nil =>
    cases rest with
    | nil => rfl
    | cons c cs =>
      have hc := h c cs rfl
      rw [show escapeQuotes [] ++ '"' :: c :: cs = '"' :: c :: cs from rfl, parseQuoted_cons]
      simp [hc]
  | cons a f ih =>
    by_cases ha : a = '"'
    · subst ha
      have he : escapeQuotes ('"' :: f) = '"' :: '"' :: escapeQuotes f := by
        simp [escapeQuotes]
      rw [he, List.cons_append, List.cons_append, parseQuoted_cons]
      simp [ih]
    · have he : escapeQuotes (a :: f) = a :: escapeQuotes f := by
        simp [escapeQuotes, ha]
      rw [he, List.cons_append, parseQuoted_cons]
      simp [ha, ih]

/-- takeWhile/dropWhile across an append whose left part satisfies the
predicate everywhere and whose right part starts with a failing character
(or is empty). -/
lemma takeWhile_append_eq {p : Char → Bool} (f rest : Str)
    (hf : ∀ c ∈ f, p c = true) (hr : ∀ c cs, rest = c :: cs → p c = false) :
    (f ++ rest).takeWhile p = f ∧ (f ++ rest).dropWhile p = rest := by
  induction f with
  | nil =>
    cases rest with
    | nil => exact ⟨rfl, rfl⟩
    | cons c cs =>
      simp [List.takeWhile_cons, List.dropWhile_cons, hr c cs rfl]
  | cons a f ih =>
    have ha := hf a (by simp)
    have ih2 := ih (fun c hc => hf c (by simp [hc]))
    simp [List.takeWhile_cons, List.dropWhile_cons, ha, ih2.1, ih2.2]

/-- Characters of a field that needs no quoting. -/
lemma needsQuote_false_mem (f : Str) (hq : needsQuote f = false) :
    ∀ c ∈ f, c ≠ ',' ∧ c ≠ '"' ∧ c ≠ '\r' ∧ c ≠ '\n' := by
  intro c hc
  simp only [needsQuote, List.any_eq_false] at hq
  have h1 := hq c hc
  simp only [Bool.or_eq_true, decide_eq_true_eq, not_or] at h1
  refine ⟨?_, ?_, ?_, ?_⟩ <;> tauto

/-- Parsing one rendered field recovers the field and leaves the rest of
the input intact, whenever the rest starts with a separator or row end. -/
lemma parseField_render (f rest : Str)
    (hr : ∀ c cs, rest = c :: cs → (c = ',' ∨ c = '\r')) :
    parseField (renderField f ++ rest) = some (f, rest) := by
  by_cases hq : needsQuote f = true
  · have hrest : ∀ c cs, rest = c :: cs → c ≠ '"' := by
      intro c cs hc
      rcases hr c cs hc with h1 | h1 <;> simp [h1]
    simp [renderField, hq, parseField, parseQuoted_escape f rest hrest]
  · have hq' : needsQuote f = false := by simpa using hq
    have hmem := needsQuote_false_mem f hq'
    have hrp : ∀ c cs, rest = c :: cs → (fun x => !isFieldEnd x) c = false := by
      intro c cs hc
      rcases hr c cs hc with h1 | h1 <;> simp [h1, isFieldEnd]
    cases f with
    | nil =>
      have hrf : renderField [] = [] := by simp [renderField, needsQuote]
      rw [hrf, List.nil_append]
      cases rest with
      | nil => rfl
      | cons c cs =>
        have hc := hr c cs rfl
        have hcq : ¬ c = '"' := by rcases hc with h1 | h1 <;> simp [h1]
        have hce : isFieldEnd c = true := by rcases hc with h1 | h1 <;> simp [h1, isFieldEnd]
        simp [parseField, hcq, List.takeWhile_cons, List.dropWhile_cons, hce]
    | cons a f' =>
      have hfp : ∀ c ∈ (a :: f'), (fun x => !isFieldEnd x) c = true := by
        intro c hc
        have h1 := hmem c hc
        simp [isFieldEnd, h1.1, h1.2.2.1, h1.2.2.2]
      have haq : ¬ a = '"' := (hmem a (by simp)).2.1
      have htw := takeWhile_append_eq (p := fun x => !isFieldEnd x) (a :: f') rest hfp hrp
      have hrf : renderField (a :: f') = a :: f' := by simp [renderField, hq']
      rw [hrf]
      simp only [parseField, List.cons_append, if_neg haq]
      rw [← List.cons_append, htw.1, htw.2]

/-- Parsing one rendered row (followed by CRLF) recovers its fields and
leaves the remaining input. -/
lemma parseRowAux_render (t : List Str) : ∀ (f : Str) (fuel : Nat) (more : Str),
    t.length < fuel →
    parseRowAux fuel (renderRowChars (f :: t) ++ '\r' :: '\n' :: more) = some (f :: t, more) := by
  induction t with
  | nil =>
    intro f fuel more hfuel
    match fuel, hfuel with
    | fuel + 1, _ =>
      have h1 : renderRowChars [f] = renderField f := rfl
      rw [h1]
      simp only [parseRowAux]
      rw [parseField_render f ('\r' :: '\n' :: more)
        (by intro c cs hc; cases hc; right; rfl)]
      rfl
  | cons g ts ih =>
    intro f fuel more hfuel
    match fuel, hfuel with
    | fuel + 1, hfuel =>
      have hlen : ts.length < fuel := by
        simp only [List.length_cons] at hfuel
        omega
      have hrr : renderRowChars (f :: g :: ts) = renderField f ++ ',' :: renderRowChars (g :: ts) := rfl
      rw [hrr, List.append_assoc, List.cons_append]
      simp only [parseRowAux]
      rw [parseField_render f (',' :: (renderRowChars (g :: ts) ++ '\r' :: '\n' :: more))
        (by intro c cs hc; cases hc; left; rfl)]
      simp [ih g fuel more hlen]

/-- A row of n fields renders to at least n-1 characters (the commas). -/
lemma renderRow_length (t : List Str) : ∀ f : Str,
    (f :: t).length ≤ (renderRowChars (f :: t)).length + 1 := by
  induction t with
  | nil =>
    intro f
    simp only [List.length_cons, List.length_nil]
    omega
  | cons g ts ih =>
    intro f
    have h1 := ih g
    have hrr : renderRowChars (f :: g :: ts) = renderField f ++ ',' :: renderRowChars (g :: ts) := rfl
    rw [hrr]
    simp only [List.length_append, List.length_cons] at h1 ⊢
    omega

/-- Rendered rows are at least one character each, so the row count bounds
the content length. -/
lemma flatten_rows_length (rows : List (List Str)) :
    rows.length ≤ ((rows.map (fun r => renderRowChars r ++ CRLF)).flatten).length := by
  induction rows with
  | nil => simp
  | cons r rs ih =>
    have h2 : CRLF.length = 2 := rfl
    simp only [List.map_cons, List.flatten_cons, List.length_append, List.length_cons]
    omega

/-- Parsing a rendered sequence of nonempty rows recovers the rows. -/
lemma parseCSVAux_render (rows : List (List Str)) : ∀ (fuel : Nat),
    rows.length ≤ fuel → (∀ r ∈ rows, r ≠ []) →
    parseCSVAux fuel ((rows.map (fun r => renderRowChars r ++ CRLF)).flatten) = some rows := by
  induction rows with
  | nil =>
    intro fuel _ _
    simp [parseCSVAux]
  | cons r rs ih =>
    intro fuel hfuel hne
    cases r with
    | nil => exact absurd rfl (hne [] (by simp))
    | cons f t =>
      cases fuel with
      | zero =>
        rw [List.length_cons] at hfuel
        omega
      | succ fuel =>
        have hcontent : (List.map (fun r => renderRowChars r ++ CRLF) ((f :: t) :: rs)).flatten
            = renderRowChars (f :: t) ++ '\r' :: '\n' ::
              (List.map (fun r => renderRowChars r ++ CRLF) rs).flatten := by
          simp [CRLF]
        rw [hcontent]
        obtain ⟨c, cs, hl⟩ : ∃ c cs, renderRowChars (f :: t) ++ '\r' :: '\n' ::
            (List.map (fun r => renderRowChars r ++ CRLF) rs).flatten = c :: cs := by
          cases renderRowChars (f :: t) <;> exact ⟨_, _, rfl⟩
        rw [hl]
        simp only [parseCSVAux]
        rw [← hl]
        have hlenrow : t.length < (renderRowChars (f :: t) ++ '\r' :: '\n' ::
            (List.map (fun r => renderRowChars r ++ CRLF) rs).flatten).length + 1 := by
          have hb := renderRow_length t f
          simp only [List.length_cons, List.length_append] at hb ⊢
          omega
        rw [parseRowAux_render t f _ _ hlenrow]
        have hrs : parseCSVAux fuel ((List.map (fun r => renderRowChars r ++ CRLF) rs).flatten)
            = some rs := by
          apply ih fuel (by rw [List.length_cons] at hfuel; omega)
          intro r' hr'
          exact hne r' (by simp [hr'])
        simp [hrs]

/-- Parsing the full rendered CSV content recovers all rows. -/
lemma parseCSV_render (rows : List (List Str)) (h : ∀ r ∈ rows, r ≠ []) :
    parseCSV ((rows.map (fun r => renderRowChars r ++ CRLF)).flatten) = some rows := by
  unfold parseCSV
  apply parseCSVAux_render rows _ _ h
  have h1 := flatten_rows_length rows
  omega

/-! ### The offset loop and the driver trace -/

/-- Closed form of the Python range with step 50: the `ceil((b-a)/50)`
multiples of 50 shifted by `a`. -/
lemma pyRange50_eq : ∀ (k : Nat) (a b : Int), (b - a).toNat = k →
    pyRange50 a b = (List.range ((k + 49) / 50)).map (fun i : Nat => a + 50 * (i : Int)) := by
  intro k
  induction k using Nat.strong_induction_on with
  | _ k ih =>
    intro a b hk
    rw [pyRange50]
    by_cases hab : a < b
    · rw [if_pos hab]
      have hk' : (b - (a + 50)).toNat = k - 50 := by omega
      have hlt : k - 50 < k := by omega
      rw [ih (k - 50) hlt (a + 50) b hk']
      have hdiv : (k + 49) / 50 = (k - 50 + 49) / 50 + 1 := by omega
      rw [hdiv, List.range_succ_eq_map]
      simp only [List.map_cons, List.map_map, Nat.cast_zero, mul_zero, add_zero,
        List.cons.injEq, true_and]
      apply List.map_congr_left
      intro i _
      simp only [Function.comp_apply, Nat.cast_succ]
      ring
    · rw [if_neg hab]
      have hk0 : k = 0 := by omega
      subst hk0
      simp

/-- Every offset produced by the loop lies in the half-open interval. -/
lemma pyRange50_mem : ∀ (k : Nat) (a b : Int), (b - a).toNat = k →
    ∀ x ∈ pyRange50 a b, a ≤ x ∧ x < b := by
  intro k
  induction k using Nat.strong_induction_on with
  | _ k ih =>
    intro a b hk x hx
    rw [pyRange50] at hx
    by_cases hab : a < b
    · rw [if_pos hab] at hx
      rcases List.mem_cons.mp hx with rfl | hx2
      · exact ⟨le_refl _, hab⟩
      · have hk' : (b - (a + 50)).toNat = k - 50 := by omega
        have hlt : k - 50 < k := by omega
        have := ih (k - 50) hlt (a + 50) b hk' x hx2
        constructor <;> omega
    · rw [if_neg hab] at hx
      simp at hx

/-- The offsets are produced in strictly increasing order. -/
lemma pyRange50_pairwise : ∀ (k : Nat) (a b : Int), (b - a).toNat = k →
    (pyRange50 a b).Pairwise (· < ·) := by
  intro k
  induction k using Nat.strong_induction_on with
  | _ k ih =>
    intro a b hk
    rw [pyRange50]
    by_cases hab : a < b
    · rw [if_pos hab]
      have hk' : (b - (a + 50)).toNat = k - 50 := by omega
      have hlt : k - 50 < k := by omega
      refine List.pairwise_cons.mpr ⟨?_, ih (k - 50) hlt (a + 50) b hk'⟩
      intro x hx
      have := pyRange50_mem (k - 50) (a + 50) b hk' x hx
      omega
    · rw [if_neg hab]
      exact List.Pairwise.nil

/-- A run of the page loop in which every page processes cleanly: the trace
is the concatenation of the per-page traces and the rows accumulate in
fetch order. -/
lemma scrapeLoop_ok (site : Site) (pages : Int → List Dict) : ∀ (offs : List Int),
    (∀ c ∈ offs, processRows (site c) = .ok (pages c)) →
    scrapeLoop site offs =
      ((offs.map (fun c => pageEvents c (pages c))).flatten,
       (offs.map pages).flatten, none) := by
  intro offs
  induction offs with
  | nil => intro _; rfl
  | cons c cs ih =>
    intro h
    have hc := h c (by simp)
    have ih2 := ih (fun c' hc' => h c' (by simp [hc']))
    simp only [scrapeLoop, process_page, hc, ih2, pageEvents]
    by_cases hlen : (pages c).length < YAHOO_RESULTS_PER_PAGE <;> simp [hlen]

/-- No page ever emits the driver-close event. -/
lemma process_page_no_close (site : Site) (cnt : Int) :
    Event.closeDriver ∉ (process_page site cnt).1 := by
  rw [process_page]
  cases hpr : processRows (site cnt) with
  | error e => simp
  | ok lst => by_cases h : lst.length < YAHOO_RESULTS_PER_PAGE <;> simp [h]

/-- The page loop never emits the driver-close event. -/
lemma scrapeLoop_no_close (site : Site) : ∀ (offs : List Int),
    Event.closeDriver ∉ (scrapeLoop site offs).1 := by
  intro offs
  induction offs with
  | nil => simp [scrapeLoop]
  | cons c cs ih =>
    have hpe := process_page_no_close site c
    rcases hpp : process_page site c with ⟨evs, r⟩
    rw [hpp] at hpe
    cases r with
    | error e =>
      simp only [scrapeLoop, hpp]
      simpa using hpe
    | ok ds =>
      rcases hsl : scrapeLoop site cs with ⟨evs2, ds2, err⟩
      rw [hsl] at ih
      simp only [scrapeLoop, hpp, hsl]
      intro hmem
      rcases List.mem_append.mp hmem with h1 | h1
      · exact hpe h1
      · exact ih h1

/-- The success path of `get_auction_draft_values`: warn exactly on a
shortfall, then write, then close. -/
lemma get_auction_ok (site : Site) (f : String) (n : Int) (evs : List Event)
    (lst : List Dict) (content : Str)
    (hloop : scrapeLoop site (pyRange50 0 n) = (evs, lst, none))
    (hw : write_auction_draft_values lst = .ok content) :
    get_auction_draft_values site f n =
      (evs ++ (if (lst.length : Int) < n then [Event.warnTotal lst.length n] else [])
          ++ [Event.writeCSV f content, Event.closeDriver], none) := by
  simp only [get_auction_draft_values, hloop, hw]

/-- Inversion: a successful `process_player` call determines the shape of
the produced record. -/
lemma process_player_ok_inv (row : PlayerRow) (d : Dict) (h : process_player row = .ok d) :
    ∃ nm ps pv ac pd team position,
      pySplitSep ps = [team, position] ∧
      d = [("Name", nm), ("Position", position), ("Projected Value", pv),
           ("Average Cost", ac), ("Percent Drafted", pd), ("Team", team)] := by
  cases h1 : row "td[1]/div/div[1]/div/a" with
  | none => simp [process_player, processPlayerFold, XPATH_MAP, h1] at h
  | some nm =>
    cases h2 : row "td[1]/div/div[1]/div/span" with
    | none => simp [process_player, processPlayerFold, XPATH_MAP, h1, h2] at h
    | some ps =>
      cases h3 : row "td[2]/div" with
      | none => simp [process_player, processPlayerFold, XPATH_MAP, h1, h2, h3] at h
      | some pv =>
        cases h4 : row "td[3]/div" with
        | none => simp [process_player, processPlayerFold, XPATH_MAP, h1, h2, h3, h4] at h
        | some ac =>
          cases h5 : row "td[4]/div" with
          | none => simp [process_player, processPlayerFold, XPATH_MAP, h1, h2, h3, h4, h5] at h
          | some pd =>
            rcases h6 : pySplitSep ps with _ | ⟨t, _ | ⟨p, _ | ⟨q, rest3⟩⟩⟩
            · rw [process_player_error row nm ps pv ac pd h1 h2 h3 h4 h5
                (by rw [h6]; simp)] at h
              exact absurd h (by simp)
            · rw [process_player_error row nm ps pv ac pd h1 h2 h3 h4 h5
                (by rw [h6]; simp)] at h
              exact absurd h (by simp)
            · rw [process_player_eq row nm ps pv ac pd t p h1 h2 h3 h4 h5 h6] at h
              injection h with h7
              exact ⟨nm, ps, pv, ac, pd, t, p, h6, h7.symm⟩
            · rw [process_player_error row nm ps pv ac pd h1 h2 h3 h4 h5
                (by rw [h6]; simp)] at h
              exact absurd h (by simp)

/-- The keys of every record a successful `process_player` call produces
are a permutation of the CSV fieldnames. -/
lemma process_player_keys (row : PlayerRow) (d : Dict) (h : process_player row = .ok d) :
    (dictKeys d).Perm fields := by
  obtain ⟨nm, ps, pv, ac, pd, t, p, _, rfl⟩ := process_player_ok_inv row d h
  have hk : dictKeys [("Name", nm), ("Position", p), ("Projected Value", pv),
      ("Average Cost", ac), ("Percent Drafted", pd), ("Team", t)] =
      ["Name", "Position", "Projected Value", "Average Cost", "Percent Drafted", "Team"] := rfl
  rw [hk]
  decide

/-- Every record in a successful page result comes from some row via
`process_player`. -/
lemma processRows_mem (rows : List PlayerRow) : ∀ (ds : List Dict),
    processRows rows = .ok ds → ∀ d ∈ ds, ∃ r, process_player r = .ok d := by
  induction rows with
  | nil =>
    intro ds h
    simp only [processRows] at h
    injection h with h1
    subst h1
    intro d hd
    simp at hd
  | cons r rs ih =>
    intro ds h
    simp only [processRows] at h
    cases hp : process_player r with
    | error e => rw [hp] at h; simp at h
    | ok d0 =>
      rw [hp] at h
      cases hr : processRows rs with
      | error e => rw [hr] at h; simp at h
      | ok ds0 =>
        rw [hr] at h
        simp only at h
        injection h with h1
        subst h1
        intro d hd
        rcases List.mem_cons.mp hd with rfl | hd2
        · exact ⟨r, hp⟩
        · exact ih ds0 hr d hd2

/-! ### The claims -/

/-- C1: for every player row whose combined Position cell splits on the
fixed delimiter into exactly two parts TEAM and POS, `process_player`
returns a record with Team = TEAM (the part before the delimiter) and
Position = POS (the part after), and the other fields (Name, Projected
Value, Average Cost, Percent Drafted) are the extracted cell values
unchanged. -/
theorem claim_split_team_position (row : PlayerRow) (nm ps pv ac pd team position : Str)
    (h1 : row "td[1]/div/div[1]/div/a" = some nm)
    (h2 : row "td[1]/div/div[1]/div/span" = some ps)
    (h3 : row "td[2]/div" = some pv)
    (h4 : row "td[3]/div" = some ac)
    (h5 : row "td[4]/div" = some pd)
    (h6 : pySplitSep ps = [team, position]) :
    process_player row =
      .ok [("Name", nm), ("Position", position), ("Projected Value", pv),
           ("Average Cost", ac), ("Percent Drafted", pd), ("Team", team)] :=
  process_player_eq row nm ps pv ac pd team position h1 h2 h3 h4 h5 h6

theorem claim_split_team_position_witness :
    rowOK "td[1]/div/div[1]/div/span" = some ("NE - QB".data) ∧
    pySplitSep ("NE - QB".data) = ["NE".data, "QB".data] ∧
    process_player rowOK =
      .ok [("Name", "7".data), ("Position", "QB".data), ("Projected Value", "7".data),
           ("Average Cost", "7".data), ("Percent Drafted", "7".data), ("Team", "NE".data)] :=
  ⟨by decide, by decide,
   claim_split_team_position rowOK ("7".data) ("NE - QB".data) ("7".data) ("7".data)
     ("7".data) ("NE".data) ("QB".data) (by decide) (by decide) (by decide)
     (by decide) (by decide) (by decide)⟩

/-- C2: for every list of records whose keys all lie in the declared
fieldnames, `write_auction_draft_values` produces exactly one header row
with the fixed column names followed by exactly one row per input record,
in input order, each serializing the fields in the fixed column order. -/
theorem claim_csv_structure (lst : List Dict)
    (h : ∀ d ∈ lst, ∀ p ∈ d, p.1 ∈ fields) :
    write_auction_draft_values lst =
      .ok (((fields.map String.data :: lst.map rowVals).map
        (fun r => renderRowChars r ++ CRLF)).flatten) :=
  write_ok lst h

theorem claim_csv_structure_witness :
    (∀ d ∈ [sampleDict], ∀ p ∈ d, p.1 ∈ fields) ∧
    write_auction_draft_values [sampleDict] =
      .ok (((fields.map String.data :: [sampleDict].map rowVals).map
        (fun r => renderRowChars r ++ CRLF)).flatten) :=
  ⟨by decide, claim_csv_structure [sampleDict] (by decide)⟩

/-- C3: when a page yields fewer rows than the fixed page size of 50,
`process_page` emits a warning and still returns the rows it collected;
when the page yields 50 or more rows no warning is emitted. -/
theorem claim_page_shortfall_warning (site : Site) (cnt : Int) (lst : List Dict)
    (h : processRows (site cnt) = .ok lst) :
    (lst.length < YAHOO_RESULTS_PER_PAGE →
      process_page site cnt =
        ([Event.fetchPage cnt, Event.warnPage lst.length cnt YAHOO_RESULTS_PER_PAGE],
         .ok lst)) ∧
    (YAHOO_RESULTS_PER_PAGE ≤ lst.length →
      process_page site cnt = ([Event.fetchPage cnt], .ok lst)) := by
  constructor
  · intro hlen
    simp only [process_page, h]
    rw [if_pos hlen]
  · intro hlen
    simp only [process_page, h]
    rw [if_neg (by omega)]

theorem claim_page_shortfall_warning_witness :
    processRows (siteEmpty 0) = .ok [] ∧
    ([] : List Dict).length < YAHOO_RESULTS_PER_PAGE ∧
    process_page siteEmpty 0 =
      ([Event.fetchPage 0, Event.warnPage 0 0 YAHOO_RESULTS_PER_PAGE], .ok []) :=
  ⟨rfl, by decide, (claim_page_shortfall_warning siteEmpty 0 [] rfl).1 (by decide)⟩

/-- C4: when the scrape completes without an exception, a warning is
emitted exactly when the accumulated total falls short of the requested
number of players, and the CSV write (and the driver close) happen in
either case. -/
theorem claim_total_shortfall_warning (site : Site) (f : String) (n : Int)
    (evs : List Event) (lst : List Dict) (content : Str)
    (hloop : scrapeLoop site (pyRange50 0 n) = (evs, lst, none))
    (hw : write_auction_draft_values lst = .ok content) :
    get_auction_draft_values site f n =
      (evs ++ (if (lst.length : Int) < n then [Event.warnTotal lst.length n] else [])
          ++ [Event.writeCSV f content, Event.closeDriver], none) :=
  get_auction_ok site f n evs lst content hloop hw

theorem claim_total_shortfall_warning_witness :
    scrapeLoop siteEmpty (pyRange50 0 10) =
      ([Event.fetchPage 0, Event.warnPage 0 0 50], [], none) ∧
    write_auction_draft_values [] = .ok (writeheader ++ []) ∧
    get_auction_draft_values siteEmpty "stats.csv" 10 =
      ([Event.fetchPage 0, Event.warnPage 0 0 50]
        ++ (if (0 : Int) < 10 then [Event.warnTotal 0 10] else [])
        ++ [Event.writeCSV "stats.csv" (writeheader ++ []), Event.closeDriver], none) := by
  have hA : scrapeLoop siteEmpty (pyRange50 0 10) =
      ([Event.fetchPage 0, Event.warnPage 0 0 50], [], none) := by
    have hr : pyRange50 0 10 = [0] := by simp [pyRange50]
    rw [hr]
    rfl
  have hB : write_auction_draft_values [] = .ok (writeheader ++ []) := rfl
  exact ⟨hA, hB,
    claim_total_shortfall_warning siteEmpty "stats.csv" 10 _ _ _ hA hB⟩

/-- C5 as stated is false: an uncaught error while processing a page exits
`get_auction_draft_values` without executing the driver close (the source
has no try/finally). -/
theorem claim_driver_close_counterexample :
    (get_auction_draft_values siteBad "stats.csv" 1).2 ≠ none ∧
    Event.closeDriver ∉ (get_auction_draft_values siteBad "stats.csv" 1).1 := by
  have hr : pyRange50 0 1 = [0] := by simp [pyRange50]
  have hg : get_auction_draft_values siteBad "stats.csv" 1 =
      ([Event.fetchPage 0], some (PyError.valueError 1)) := by
    rw [get_auction_draft_values, hr]
    rfl
  rw [hg]
  decide

/-- C5 amended: the driver close executes (as the final action) exactly on
the normal-completion path; when the scrape or the CSV write raises an
uncaught error, control leaves `get_auction_draft_values` without the
close ever executing. -/
theorem claim_driver_close_amended (site : Site) (f : String) (n : Int) :
    ((get_auction_draft_values site f n).2 = none →
      ∃ pre, (get_auction_draft_values site f n).1 = pre ++ [Event.closeDriver]) ∧
    ((get_auction_draft_values site f n).2 ≠ none →
      Event.closeDriver ∉ (get_auction_draft_values site f n).1) := by
  have hnc := scrapeLoop_no_close site (pyRange50 0 n)
  rcases hsl : scrapeLoop site (pyRange50 0 n) with ⟨evs, lst, err⟩
  rw [hsl] at hnc
  cases err with
  | some e =>
    have hg : get_auction_draft_values site f n = (evs, some e) := by
      rw [get_auction_draft_values, hsl]
    rw [hg]
    constructor
    · intro h
      simp at h
    · intro _
      simpa using hnc
  | none =>
    cases hw : write_auction_draft_values lst with
    | error e =>
      have hg : get_auction_draft_values site f n =
          (evs ++ (if (lst.length : Int) < n then [Event.warnTotal lst.length n] else []),
           some e) := by
        simp only [get_auction_draft_values, hsl, hw]
      rw [hg]
      constructor
      · intro h
        simp at h
      · intro _
        simp only [List.mem_append]
        rintro (hm | hm)
        · exact hnc hm
        · by_cases hc : (lst.length : Int) < n
          · rw [if_pos hc] at hm; simp at hm
          · rw [if_neg hc] at hm; simp at hm
    | ok content =>
      rw [get_auction_ok site f n evs lst content hsl hw]
      constructor
      · intro _
        refine ⟨evs ++ (if (lst.length : Int) < n then [Event.warnTotal lst.length n] else [])
          ++ [Event.writeCSV f content], ?_⟩
        simp
      · intro h
        simp at h

theorem claim_driver_close_amended_witness :
    (get_auction_draft_values siteEmpty "stats.csv" 0).2 = none ∧
    ∃ pre, (get_auction_draft_values siteEmpty "stats.csv" 0).1 = pre ++ [Event.closeDriver] := by
  have h0 : pyRange50 0 0 = [] := by simp [pyRange50]
  have hg : get_auction_draft_values siteEmpty "stats.csv" 0 =
      ([Event.writeCSV "stats.csv" (writeheader ++ []), Event.closeDriver], none) := by
    rw [get_auction_draft_values, h0]
    rfl
  constructor
  · rw [hg]
  · exact (claim_driver_close_amended siteEmpty "stats.csv" 0).1 (by rw [hg])

/-- C6: a combined Position cell whose split does not have exactly two
parts makes `process_player` raise an uncaught `ValueError`; no record is
produced for the row, the rows after it on the page are never processed
(the page result does not depend on them), and `process_page` propagates
the error. -/
theorem claim_malformed_position_error (row : PlayerRow) (nm ps pv ac pd : Str)
    (h1 : row "td[1]/div/div[1]/div/a" = some nm)
    (h2 : row "td[1]/div/div[1]/div/span" = some ps)
    (h3 : row "td[2]/div" = some pv)
    (h4 : row "td[3]/div" = some ac)
    (h5 : row "td[4]/div" = some pd)
    (hlen : (pySplitSep ps).length ≠ 2) :
    process_player row = .error (.valueError (pySplitSep ps).length) ∧
    (∀ pre post ds, processRows pre = .ok ds →
      processRows (pre ++ row :: post) = .error (.valueError (pySplitSep ps).length)) ∧
    (∀ (site : Site) (cnt : Int) pre post ds, site cnt = pre ++ row :: post →
      processRows pre = .ok ds →
      process_page site cnt =
        ([Event.fetchPage cnt], .error (.valueError (pySplitSep ps).length))) := by
  have hpp := process_player_error row nm ps pv ac pd h1 h2 h3 h4 h5 hlen
  have hrows : ∀ post, processRows (row :: post) =
      .error (.valueError (pySplitSep ps).length) := by
    intro post
    simp only [processRows, hpp]
  refine ⟨hpp, ?_, ?_⟩
  · intro pre post ds hds
    exact processRows_append_error pre (row :: post) ds _ hds (hrows post)
  · intro site cnt pre post ds hsite hds
    have hall := processRows_append_error pre (row :: post) ds _ hds (hrows post)
    simp only [process_page, hsite, hall]

theorem claim_malformed_position_error_witness :
    (pySplitSep ("FA".data)).length = 1 ∧
    process_player rowBad = .error (.valueError (pySplitSep ("FA".data)).length) ∧
    processRows ([rowOK] ++ rowBad :: [rowOK]) =
      .error (.valueError (pySplitSep ("FA".data)).length) ∧
    process_page siteMixed 0 =
      ([Event.fetchPage 0], .error (.valueError (pySplitSep ("FA".data)).length)) := by
  have h := claim_malformed_position_error rowBad ("FA".data) ("FA".data) ("FA".data)
    ("FA".data) ("FA".data) rfl rfl rfl rfl rfl (by decide)
  refine ⟨by decide, h.1, ?_, ?_⟩
  · exact h.2.1 [rowOK] [rowOK]
      [[("Name", "7".data), ("Position", "QB".data), ("Projected Value", "7".data),
        ("Average Cost", "7".data), ("Percent Drafted", "7".data), ("Team", "NE".data)]] rfl
  · exact h.2.2 siteMixed 0 [rowOK] [rowOK]
      [[("Name", "7".data), ("Position", "QB".data), ("Projected Value", "7".data),
        ("Average Cost", "7".data), ("Percent Drafted", "7".data), ("Team", "NE".data)]] rfl rfl

/-- C7: writing any list of records (with keys among the fieldnames) and
parsing the resulting CSV content back recovers exactly the header row
plus one row per record, with every field value identical to the value
the record held. -/
theorem claim_csv_roundtrip (lst : List Dict)
    (h : ∀ d ∈ lst, ∀ p ∈ d, p.1 ∈ fields) :
    ∃ content, write_auction_draft_values lst = .ok content ∧
      parseCSV content = some (fields.map String.data :: lst.map rowVals) := by
  refine ⟨_, write_ok lst h, ?_⟩
  apply parseCSV_render
  intro r hr
  rcases List.mem_cons.mp hr with rfl | hr2
  · simp [fields]
  · rcases List.mem_map.mp hr2 with ⟨d, hd, rfl⟩
    simp [rowVals, fields]

theorem claim_csv_roundtrip_witness :
    (∀ d ∈ [sampleDict], ∀ p ∈ d, p.1 ∈ fields) ∧
    ∃ content, write_auction_draft_values [sampleDict] = .ok content ∧
      parseCSV content = some (fields.map String.data :: [sampleDict].map rowVals) :=
  ⟨by decide, claim_csv_roundtrip [sampleDict] (by decide)⟩

/-- C8: the scrape fetches pages at exactly the multiples of 50 below the
requested total, in strictly increasing order — `ceil(n/50)` fetches for a
positive request and none for a request of at most zero — accumulates the
page results in fetch order, and on clean completion the CSV write happens
after all fetches and before the driver close. -/
theorem claim_page_offsets (site : Site) (f : String) (n : Int) (pages : Int → List Dict)
    (content : Str)
    (hpages : ∀ c ∈ pyRange50 0 n, processRows (site c) = .ok (pages c))
    (hw : write_auction_draft_values (((pyRange50 0 n).map pages).flatten) = .ok content) :
    pyRange50 0 n = (List.range (numPages n)).map (fun i : Nat => 50 * (i : Int)) ∧
    (n ≤ 0 → numPages n = 0) ∧
    (0 < n → numPages n = (n.toNat + 49) / 50) ∧
    (pyRange50 0 n).Pairwise (· < ·) ∧
    (∀ x ∈ pyRange50 0 n, 0 ≤ x ∧ x < n) ∧
    get_auction_draft_values site f n =
      (((pyRange50 0 n).map (fun c => pageEvents c (pages c))).flatten
        ++ (if (((pyRange50 0 n).map pages).flatten.length : Int) < n
              then [Event.warnTotal (((pyRange50 0 n).map pages).flatten.length) n] else [])
        ++ [Event.writeCSV f content, Event.closeDriver], none) := by
  have hnum : numPages n = (n.toNat + 49) / 50 := by
    unfold numPages
    by_cases hn : n ≤ 0
    · rw [if_pos hn]
      have h0 : n.toNat = 0 := by omega
      rw [h0]
    · rw [if_neg hn]
  refine ⟨?_, ?_, ?_, pyRange50_pairwise _ 0 n rfl, ?_, ?_⟩
  · rw [pyRange50_eq (n - 0).toNat 0 n rfl]
    have hk : ((n - 0).toNat + 49) / 50 = numPages n := by rw [hnum]; omega
    rw [hk]
    apply List.map_congr_left
    intro i _
    ring
  · intro hn
    unfold numPages
    rw [if_pos hn]
  · intro hn
    unfold numPages
    rw [if_neg (by omega)]
  · intro x hx
    have := pyRange50_mem (n - 0).toNat 0 n rfl x hx
    omega
  · exact get_auction_ok site f n _ _ content
      (scrapeLoop_ok site pages (pyRange50 0 n) hpages) hw

theorem claim_page_offsets_witness :
    (∀ c ∈ pyRange50 0 60, processRows (siteEmpty c) = .ok []) ∧
    write_auction_draft_values (((pyRange50 0 60).map (fun _ => ([] : List Dict))).flatten) =
      .ok (writeheader ++ []) ∧
    (pyRange50 0 60 = (List.range (numPages 60)).map (fun i : Nat => 50 * (i : Int)) ∧
     ((60 : Int) ≤ 0 → numPages 60 = 0) ∧
     ((0 : Int) < 60 → numPages 60 = ((60 : Int).toNat + 49) / 50) ∧
     (pyRange50 0 60).Pairwise (· < ·) ∧
     (∀ x ∈ pyRange50 0 60, 0 ≤ x ∧ x < 60) ∧
     get_auction_draft_values siteEmpty "stats.csv" 60 =
       (((pyRange50 0 60).map (fun c => pageEvents c [])).flatten
         ++ (if (((pyRange50 0 60).map (fun _ => ([] : List Dict))).flatten.length : Int) < 60
               then [Event.warnTotal ((((pyRange50 0 60).map
                      (fun _ => ([] : List Dict))).flatten.length)) 60] else [])
         ++ [Event.writeCSV "stats.csv" (writeheader ++ []), Event.closeDriver], none)) := by
  have hp : ∀ c ∈ pyRange50 0 60, processRows (siteEmpty c) = .ok ((fun _ => ([] : List Dict)) c) :=
    fun c _ => rfl
  have hw : write_auction_draft_values
      (((pyRange50 0 60).map (fun _ => ([] : List Dict))).flatten) = .ok (writeheader ++ []) := by
    have hr : pyRange50 0 60 = [0, 50] := by simp [pyRange50]
    rw [hr]
    rfl
  exact ⟨hp, hw,
    claim_page_offsets siteEmpty "stats.csv" 60 (fun _ => []) (writeheader ++ []) hp hw⟩

/-- C9: for the empty record list the writer still produces the header
row, so the output is exactly the one header line; in particular a request
of at most zero players writes a header-only CSV and closes the driver. -/
theorem claim_empty_header_only :
    write_auction_draft_values [] =
      .ok ("Name,Position,Team,Projected Value,Average Cost,Percent Drafted".data ++ CRLF) ∧
    ∀ (site : Site) (f : String) (n : Int), n ≤ 0 →
      get_auction_draft_values site f n =
        ([Event.writeCSV f
            ("Name,Position,Team,Projected Value,Average Cost,Percent Drafted".data ++ CRLF),
          Event.closeDriver], none) := by
  have hw : write_auction_draft_values [] =
      .ok ("Name,Position,Team,Projected Value,Average Cost,Percent Drafted".data ++ CRLF) := by
    rfl
  refine ⟨hw, ?_⟩
  intro site f n hn
  have h0 : pyRange50 0 n = [] := by
    rw [pyRange50, if_neg (by omega)]
  rw [get_auction_draft_values, h0]
  simp [scrapeLoop, hw, show ¬ ((0 : Int) < n) from by omega]

theorem claim_empty_header_only_witness :
    ((-5 : Int) ≤ 0) ∧
    get_auction_draft_values siteEmpty "stats.csv" (-5) =
      ([Event.writeCSV "stats.csv"
          ("Name,Position,Team,Projected Value,Average Cost,Percent Drafted".data ++ CRLF),
        Event.closeDriver], none) :=
  ⟨by decide, claim_empty_header_only.2 siteEmpty "stats.csv" (-5) (by decide)⟩

/-- C10: every record a successful `process_player` call returns has
exactly the six CSV fieldnames as its key set, and hence so does every
record accumulated from any successfully processed page. -/
theorem claim_record_keys :
    (∀ (row : PlayerRow) (d : Dict), process_player row = .ok d →
      (dictKeys d).Perm fields) ∧
    (∀ (rows : List PlayerRow) (ds : List Dict), processRows rows = .ok ds →
      ∀ d ∈ ds, (dictKeys d).Perm fields) :=
  ⟨fun row d h => process_player_keys row d h,
   fun rows ds h d hd => by
     obtain ⟨r, hr⟩ := processRows_mem rows ds h d hd
     exact process_player_keys r d hr⟩

theorem claim_record_keys_witness :
    process_player rowOK = .ok [("Name", "7".data), ("Position", "QB".data),
      ("Projected Value", "7".data), ("Average Cost", "7".data),
      ("Percent Drafted", "7".data), ("Team", "NE".data)] ∧
    (dictKeys [("Name", "7".data), ("Position", "QB".data), ("Projected Value", "7".data),
      ("Average Cost", "7".data), ("Percent Drafted", "7".data),
      ("Team", "NE".data)]).Perm fields :=
  ⟨rfl, claim_record_keys.1 rowOK _ rfl⟩

end ScrapeValue
